import Mathlib

/-!
# VoiceBoard — verification of core claims

Shallow embedding of the core of the VoiceBoard repository:

* `voiceboard/transcriber.py` — the realtime Soniox transcription session
  (`RealtimeTranscriber`): token reconciliation (`_process_tokens`),
  session lifecycle (`start`, `stop`, `send_audio`), and the configuration
  message (`_send_config`).
* `voiceboard/hotkeys.py` — the global hotkey recognition engine
  (`_EvdevHotkeyListener`): shortcut parsing, simultaneous-chord latching,
  sequential / double-tap matching, and state reset on reconfigure/stop.
* `voiceboard/audio.py` — the recorder's fixed target sample rate.

Python strings are modelled as `List Char`, Python sets of key codes as
`Finset Nat`, and `time.monotonic` timestamps as `ℚ`.
-/

namespace VoiceBoard

/-! ## Text-correction reconciler (`transcriber.py`, `_process_tokens`)

The reconciler strips Soniox control markers from token text with
`re.sub(r"<\w+>", "", text)`; we embed that substitution literally:
scanning left to right, a maximal nonempty run of word characters
enclosed in `<` `>` is removed. -/

/-- `\w` of the Python regex: a letter, a digit, or an underscore. -/
def isWordChar (c : Char) : Bool := c.isAlphanum || c = '_'

/-- Split a character list into its longest prefix of word characters and
the rest (the `\w+` part of the regex match attempt). -/
def spanWord : List Char → List Char × List Char
  | [] => ([], [])
  | c :: rest =>
    if isWordChar c then
      let p := spanWord rest
      (c :: p.1, p.2)
    else ([], c :: rest)

theorem spanWord_length (l : List Char) : (spanWord l).2.length ≤ l.length := by
  induction l with
  | nil => simp [spanWord]
  | cons c rest ih =>
    simp only [spanWord]
    by_cases h : isWordChar c = true
    · simp [h]; omega
    · simp [h]

/-- Try to match `\w+>` at the head of `l` (the part after a `<`); on
success return the remainder of the input after the closing `>`. -/
def matchAngle (l : List Char) : Option (List Char) :=
  match spanWord l with
  | ([], _) => none
  | (_ :: _, c :: rest) => if c = '>' then some rest else none
  | (_ :: _, []) => none

theorem matchAngle_length {l rem : List Char} (h : matchAngle l = some rem) :
    rem.length < l.length := by
  have hr := spanWord_length l
  unfold matchAngle at h
  rcases hp : spanWord l with ⟨w, r⟩
  rw [hp] at h hr
  match w, r with
  | [], r => simp at h
  | a :: w, [] => simp at h
  | a :: w, c :: rest =>
    simp only [] at h
    split at h
    · cases h
      simp at hr
      omega
    · simp at h

/-- Embedding of `re.sub(r"<\w+>", "", text)`: delete every leftmost
occurrence of `<` + word-run + `>`, scanning left to right. -/
def stripControl : List Char → List Char
  | [] => []
  | c :: rest =>
    if c = '<' then
      match h : matchAngle rest with
      | some rem => stripControl rem
      | none => c :: stripControl rest
    else c :: stripControl rest
termination_by l => l.length
decreasing_by
  · exact Nat.lt_succ_of_lt (matchAngle_length h)
  · simp
  · simp

/-- One server token: text plus its `is_final` flag (`transcriber.py`). -/
structure Token where
  text : List Char
  is_final : Bool

/-- The token-collection loop of `_process_tokens`: concatenate the
stripped text of final tokens (first component) and of non-final tokens
(second component), skipping tokens whose raw or stripped text is empty. -/
def tokenParts : List Token → List Char × List Char
  | [] => ([], [])
  | tok :: rest =>
    let p := tokenParts rest
    if tok.text = [] then p
    else
      let s := stripControl tok.text
      if s = [] then p
      else if tok.is_final then (s ++ p.1, p.2) else (p.1, s ++ p.2)

/-- A correction instruction sent to the injection sink via
`on_text(new_text, backspace_count)`. -/
structure Correction where
  erase_count : Nat
  insert_text : List Char

/-- `_process_tokens` on one batch: given the remembered non-final text
(`self._nonfinal_typed_text`) and the batch, return the emitted
instruction (if any) and the updated remembered non-final text. -/
def processTokens (st : List Char) (batch : List Token) :
    Option Correction × List Char :=
  let p := tokenParts batch
  if p.1 = [] ∧ p.2 = [] then (none, st)
  else
    let newText := p.1 ++ p.2
    (if 0 < st.length ∨ newText ≠ [] then some ⟨st.length, newText⟩ else none,
     p.2)

/-- Apply a correction to a virtual text buffer: delete the last
`erase_count` characters, then append `insert_text`. -/
def applyCorrection (buf : List Char) (c : Correction) : List Char :=
  buf.take (buf.length - c.erase_count) ++ c.insert_text

/-- Process a sequence of token batches in arrival order, threading the
reconciler state and applying each emitted instruction to the virtual
buffer.  Returns the final state and buffer. -/
def runBatches : List Char → List Char → List (List Token) → List Char × List Char
  | st, buf, [] => (st, buf)
  | st, buf, b :: bs =>
    match processTokens st b with
    | (some c, st') => runBatches st' (applyCorrection buf c) bs
    | (none, st') => runBatches st' buf bs

/-- Concatenation of all final-tagged (stripped) token text over a batch
sequence. -/
def finalsConcat : List (List Token) → List Char
  | [] => []
  | b :: bs => (tokenParts b).1 ++ finalsConcat bs

/-- The non-final text of the most recent batch that produced an
instruction, starting from remembered text `st` (a batch produces an
instruction exactly when it has some final or non-final text). -/
def lastNonfinalFrom (st : List Char) : List (List Token) → List Char
  | [] => st
  | b :: bs =>
    let p := tokenParts b
    lastNonfinalFrom (if p.1 = [] ∧ p.2 = [] then st else p.2) bs

/-! ## Hotkey recognition engine (`hotkeys.py`, `_EvdevHotkeyListener`) -/

/-- `_ShortcutConfig`: a frozenset `combo` of key codes that must all be
held simultaneously, or `seqKeys = (first, second)` for a sequential
shortcut.  The Python empty tuple is `none`. -/
structure ShortcutConfig where
  combo : Finset Nat
  seqKeys : Option (Nat × Nat)
deriving DecidableEq

/-- `_ShortcutConfig.is_sequential`: `len(seq_keys) == 2`. -/
def ShortcutConfig.isSequential (c : ShortcutConfig) : Bool := c.seqKeys.isSome

/-- `_ShortcutConfig.is_combo`: `bool(combo)`. -/
def ShortcutConfig.isCombo (c : ShortcutConfig) : Bool := decide (c.combo ≠ ∅)

/-- `_ShortcutConfig.is_empty`. -/
def ShortcutConfig.isEmpty (c : ShortcutConfig) : Bool :=
  decide (c.combo = ∅) && decide (c.seqKeys = none)

/-- The second key of a sequential shortcut (`cfg.seq_keys[1]`). -/
def ShortcutConfig.secondKey (c : ShortcutConfig) : Option Nat :=
  c.seqKeys.map Prod.snd

/-- `_SEQ_WINDOW = 0.6` seconds. -/
def seqWindow : ℚ := 3 / 5

/-- `_SeqState` of one sequential shortcut: armed flag plus its
`time.monotonic` timestamp. -/
structure SeqState where
  armed : Bool
  armedTime : ℚ
deriving DecidableEq

/-- `_SeqState` after `reset()` / `__init__`. -/
def SeqState.init : SeqState := ⟨false, 0⟩

/-- `_EvdevHotkeyListener._check_seq`: returns the updated sequential
state and whether `code` completed the sequential shortcut `cfg` at time
`now`.  A fire resets the state and returns before re-arming; a press of
the first key (when no fire happened) arms the state at `now`. -/
def checkSeq (cfg : ShortcutConfig) (st : SeqState) (code : Nat) (now : ℚ) :
    SeqState × Bool :=
  match cfg.seqKeys with
  | none => (st, false)
  | some (first, second) =>
    if code = second ∧ st.armed = true ∧ now - st.armedTime ≤ seqWindow then
      (SeqState.init, true)
    else if code = first then
      (⟨true, now⟩, false)
    else (st, false)

/-- `_EvdevHotkeyListener._combo_matches`. -/
def comboMatches (cfg : ShortcutConfig) (currentKeys : Finset Nat) : Bool :=
  cfg.isCombo && decide (cfg.combo ⊆ currentKeys)

/-- Recognition state of `_EvdevHotkeyListener`: the two parsed shortcut
configs, the currently-held key set, the per-shortcut sequential states,
and the two combo latch flags. -/
structure ListenerState where
  toggleCfg : ShortcutConfig
  pttCfg : ShortcutConfig
  currentKeys : Finset Nat
  toggleSeq : SeqState
  pttSeq : SeqState
  toggleComboActive : Bool
  pttComboActive : Bool
deriving DecidableEq

/-- High-level events raised during one key event. -/
structure Fired where
  toggle : Bool
  pttPress : Bool
  pttRelease : Bool
deriving DecidableEq

/-- The toggle section of `_on_key_down`. -/
def toggleDown (s : ListenerState) (code : Nat) (now : ℚ) : ListenerState × Bool :=
  if s.toggleCfg.isSequential = true then
    let r := checkSeq s.toggleCfg s.toggleSeq code now
    ({s with toggleSeq := r.1}, r.2)
  else if s.toggleCfg.isCombo = true then
    if comboMatches s.toggleCfg s.currentKeys = true then
      if s.toggleComboActive = true then (s, false)
      else ({s with toggleComboActive := true}, true)
    else (s, false)
  else (s, false)

/-- The push-to-talk section of `_on_key_down`. -/
def pttDown (s : ListenerState) (code : Nat) (now : ℚ) : ListenerState × Bool :=
  if s.pttCfg.isSequential = true then
    let r := checkSeq s.pttCfg s.pttSeq code now
    let s' := {s with pttSeq := r.1}
    if r.2 = true then
      if s'.pttComboActive = true then (s', false)
      else ({s' with pttComboActive := true}, true)
    else (s', false)
  else if s.pttCfg.isCombo = true then
    if comboMatches s.pttCfg s.currentKeys = true then
      if s.pttComboActive = true then (s, false)
      else ({s with pttComboActive := true}, true)
    else (s, false)
  else (s, false)

/-- `_on_key_down`: process the toggle shortcut, then the push-to-talk
shortcut. -/
def onKeyDown (s : ListenerState) (code : Nat) (now : ℚ) : ListenerState × Fired :=
  let tog := toggleDown s code now
  let ptt := pttDown tog.1 code now
  (ptt.1, ⟨tog.2, ptt.2, false⟩)

/-- The push-to-talk release section of `_on_key_up` (combo release
followed by sequential second-key release). -/
def pttUp (s : ListenerState) (code : Nat) : ListenerState × Bool :=
  let a : ListenerState × Bool :=
    if s.pttComboActive = true ∧ s.pttCfg.isCombo = true ∧ code ∈ s.pttCfg.combo then
      ({s with pttComboActive := false}, true)
    else (s, false)
  let b : ListenerState × Bool :=
    if a.1.pttComboActive = true ∧ a.1.pttCfg.isSequential = true ∧
        a.1.pttCfg.secondKey = some code then
      ({a.1 with pttComboActive := false}, true)
    else (a.1, false)
  (b.1, a.2 || b.2)

/-- The toggle-latch reset section of `_on_key_up`. -/
def toggleUpLatch (s : ListenerState) (code : Nat) : ListenerState :=
  if s.toggleComboActive = true ∧ s.toggleCfg.isCombo = true ∧
      code ∈ s.toggleCfg.combo then
    {s with toggleComboActive := false}
  else s

/-- `_on_key_up`: push-to-talk releases, then the toggle latch reset. -/
def onKeyUp (s : ListenerState) (code : Nat) : ListenerState × Fired :=
  let p := pttUp s code
  (toggleUpLatch p.1 code, ⟨false, false, p.2⟩)

/-- A normalized key event as delivered by the listener loop. -/
inductive KeyEvent
  | down (code : Nat)
  | up (code : Nat)
deriving DecidableEq

/-- One iteration of the `_run` event loop on a key event: key-down adds
the code to the held set and runs `_on_key_down`; key-up runs
`_on_key_up` and then discards the code from the held set. -/
def stepEvent (s : ListenerState) (e : KeyEvent) (now : ℚ) : ListenerState × Fired :=
  match e with
  | .down code =>
    let s1 := {s with currentKeys := insert code s.currentKeys}
    onKeyDown s1 code now
  | .up code =>
    let r := onKeyUp s code
    ({r.1 with currentKeys := r.1.currentKeys.erase code}, r.2)

/-- Process a timed event stream, counting toggle fires. -/
def runEvents (s : ListenerState) : List (KeyEvent × ℚ) → ListenerState × Nat
  | [] => (s, 0)
  | (e, t) :: es =>
    let r := stepEvent s e t
    let rest := runEvents r.1 es
    (rest.1, (if r.2.toggle then 1 else 0) + rest.2)

/-- Run `_check_seq` for a double-tap shortcut (`first = second = k`) over
a list of key-down timestamps, collecting the fire results in order. -/
def runTaps (k : Nat) (st : SeqState) : List ℚ → SeqState × List Bool
  | [] => (st, [])
  | t :: ts =>
    let r := checkSeq ⟨∅, some (k, k)⟩ st k t
    let rest := runTaps k r.1 ts
    (rest.1, r.2 :: rest.2)

/-- Expected double-tap fire pattern: no fire on the 1st tap, a fire on
the 2nd, and so on alternating — fires exactly on the even-numbered
taps. -/
def altFires : Nat → List Bool
  | 0 => []
  | 1 => [false]
  | n + 2 => false :: true :: altFires n

/-! ## Shortcut string parsing (`hotkeys.py`, evdev backend)

Key code values are the Linux kernel input event codes that the `evdev`
library re-exports as `ecodes.KEY_*`.  The dynamic
`getattr(ecodes, f"KEY_{name}", None)` fallback of
`_resolve_evdev_token` is modelled by an abstract lookup table
`ecodesLookup : List Char → Option Nat` (keyed by the uppercased name),
since it ranges over the whole `ecodes` namespace of the external
library. -/

def KEY_LEFTCTRL : Nat := 29
def KEY_RIGHTCTRL : Nat := 97
def KEY_LEFTSHIFT : Nat := 42
def KEY_RIGHTSHIFT : Nat := 54
def KEY_LEFTALT : Nat := 56
def KEY_RIGHTALT : Nat := 100
def KEY_LEFTMETA : Nat := 125
def KEY_RIGHTMETA : Nat := 126
def KEY_SPACE : Nat := 57
def KEY_ENTER : Nat := 28
def KEY_TAB : Nat := 15
def KEY_BACKSPACE : Nat := 14
def KEY_DELETE : Nat := 111
def KEY_HOME : Nat := 102
def KEY_END : Nat := 107
def KEY_PAGEUP : Nat := 104
def KEY_PAGEDOWN : Nat := 109
def KEY_UP : Nat := 103
def KEY_DOWN : Nat := 108
def KEY_LEFT : Nat := 105
def KEY_RIGHT : Nat := 106
def KEY_INSERT : Nat := 110
def KEY_PAUSE : Nat := 119
def KEY_SYSRQ : Nat := 99
def KEY_SCROLLLOCK : Nat := 70
def KEY_CAPSLOCK : Nat := 58
def KEY_NUMLOCK : Nat := 69

/-- `KEY_F1 .. KEY_F12`. -/
def fKeyCode (i : Nat) : Nat := if i ≤ 10 then 58 + i else 76 + i

/-- `_evdev_token_map`: bracketed symbolic token → list of key codes
(left variant first, right variant second for the modifier pairs). -/
def evdevTokenMap : List (List Char × List Nat) :=
  [("<ctrl>".toList, [KEY_LEFTCTRL, KEY_RIGHTCTRL]),
   ("<shift>".toList, [KEY_LEFTSHIFT, KEY_RIGHTSHIFT]),
   ("<alt>".toList, [KEY_LEFTALT, KEY_RIGHTALT]),
   ("<super>".toList, [KEY_LEFTMETA, KEY_RIGHTMETA]),
   ("<cmd>".toList, [KEY_LEFTMETA, KEY_RIGHTMETA]),
   ("<space>".toList, [KEY_SPACE]),
   ("<enter>".toList, [KEY_ENTER]),
   ("<tab>".toList, [KEY_TAB]),
   ("<backspace>".toList, [KEY_BACKSPACE]),
   ("<delete>".toList, [KEY_DELETE]),
   ("<home>".toList, [KEY_HOME]),
   ("<end>".toList, [KEY_END]),
   ("<page_up>".toList, [KEY_PAGEUP]),
   ("<page_down>".toList, [KEY_PAGEDOWN]),
   ("<up>".toList, [KEY_UP]),
   ("<down>".toList, [KEY_DOWN]),
   ("<left>".toList, [KEY_LEFT]),
   ("<right>".toList, [KEY_RIGHT]),
   ("<insert>".toList, [KEY_INSERT]),
   ("<pause>".toList, [KEY_PAUSE]),
   ("<print_screen>".toList, [KEY_SYSRQ]),
   ("<scroll_lock>".toList, [KEY_SCROLLLOCK]),
   ("<caps_lock>".toList, [KEY_CAPSLOCK]),
   ("<num_lock>".toList, [KEY_NUMLOCK])] ++
  (List.range 12).map (fun i =>
    (('<' :: 'f' :: (Nat.toDigits 10 (i + 1))) ++ ">".toList, [fKeyCode (i + 1)]))

/-- `_evdev_char_map`: single printable character → key code (kernel
codes for the letter, digit and punctuation keys). -/
def evdevCharMap : List (Char × Nat) :=
  [('a', 30), ('b', 48), ('c', 46), ('d', 32), ('e', 18), ('f', 33),
   ('g', 34), ('h', 35), ('i', 23), ('j', 36), ('k', 37), ('l', 38),
   ('m', 50), ('n', 49), ('o', 24), ('p', 25), ('q', 16), ('r', 19),
   ('s', 31), ('t', 20), ('u', 22), ('v', 47), ('w', 17), ('x', 45),
   ('y', 21), ('z', 44),
   ('0', 11), ('1', 2), ('2', 3), ('3', 4), ('4', 5), ('5', 6),
   ('6', 7), ('7', 8), ('8', 9), ('9', 10),
   ('-', 12), ('=', 13), ('[', 26), (']', 27), (';', 39), ('\'', 40),
   ('.', 52), ('/', 53), ('\\', 43), ('`', 41)]

/-- Association-list lookup (the Python `dict` membership test). -/
def lookupAssoc {α : Type} (m : List (List Char × α)) (t : List Char) : Option α :=
  (m.find? (fun p => p.1 == t)).map Prod.snd

/-- Lookup in the single-character map. -/
def lookupChar (m : List (Char × Nat)) (t : List Char) : Option Nat :=
  match t with
  | [c] => (m.find? (fun p => p.1 == c)).map Prod.snd
  | _ => none

/-- Python `str.strip()` on a character list. -/
def stripStr (l : List Char) : List Char :=
  ((l.dropWhile Char.isWhitespace).reverse.dropWhile Char.isWhitespace).reverse

/-- Python `str.lower()` on a character list. -/
def lowerStr (l : List Char) : List Char := l.map Char.toLower

/-- Python `str.upper()` on a character list. -/
def upperStr (l : List Char) : List Char := l.map Char.toUpper

/-- `_resolve_evdev_token`: strip and lowercase the token, look it up in
the symbolic token map (taking the left variant, i.e. the head of the
code list), then in the character map, and finally — for a bracketed
token — in the `ecodes` namespace; unknown tokens resolve to `none`
(logged as a warning in the source, never an error). -/
def resolveEvdevToken (ecodesLookup : List Char → Option Nat)
    (token : List Char) : Option Nat :=
  let t := lowerStr (stripStr token)
  match lookupAssoc evdevTokenMap t with
  | some codes => codes.head?
  | none =>
    match lookupChar evdevCharMap t with
    | some c => some c
    | none =>
      if t.head? = some '<' ∧ t.getLast? = some '>' then
        ecodesLookup (upperStr ((t.drop 1).dropLast))
      else none

/-- `_normalize_shortcut_str`: convert legacy `2x<token>` to
`<token>,<token>`. -/
def normalizeShortcutStr (s : List Char) : List Char :=
  if s.take 2 = "2x".toList then
    let token := s.drop 2
    token ++ [','] ++ token
  else s

/-- Python `split(",", 1)`: the part before the first separator and the
part after it. -/
def splitOnce (sep : Char) : List Char → List Char × List Char
  | [] => ([], [])
  | c :: rest =>
    if c = sep then ([], rest)
    else
      let p := splitOnce sep rest
      (c :: p.1, p.2)

/-- `_parse_shortcut_evdev`: empty string → empty config; a string with a
comma parses as a sequential pair (empty config if either half fails to
resolve); otherwise the `+`-separated parts form a simultaneous combo,
dropping unresolved tokens, with zero resolved keys yielding the empty
config. -/
def parseShortcutEvdev (ecodesLookup : List Char → Option Nat)
    (s : List Char) : ShortcutConfig :=
  if s = [] then ⟨∅, none⟩
  else
    let s := normalizeShortcutStr s
    if ',' ∈ s then
      let halves := splitOnce ',' s
      match resolveEvdevToken ecodesLookup halves.1,
            resolveEvdevToken ecodesLookup halves.2 with
      | some f, some sec => ⟨∅, some (f, sec)⟩
      | _, _ => ⟨∅, none⟩
    else
      let codes := (s.splitOn '+').foldl (fun acc part =>
        match resolveEvdevToken ecodesLookup part with
        | some c => insert c acc
        | none => acc) (∅ : Finset Nat)
      if codes ≠ ∅ then ⟨codes, none⟩ else ⟨∅, none⟩

/-- The tokens a shortcut string is cut into by `_parse_shortcut_evdev`
(the two comma halves, or the `+`-separated parts). -/
def shortcutTokens (s : List Char) : List (List Char) :=
  let s := normalizeShortcutStr s
  if ',' ∈ s then [(splitOnce ',' s).1, (splitOnce ',' s).2]
  else s.splitOn '+'

/-- `_EvdevHotkeyListener.set_shortcuts`: parse both shortcut strings and
reset the two sequential states; the held-key set and the combo latch
flags are not touched. -/
def setShortcuts (ecodesLookup : List Char → Option Nat) (s : ListenerState)
    (toggleStr pttStr : List Char) : ListenerState :=
  { s with
    toggleCfg := parseShortcutEvdev ecodesLookup toggleStr
    pttCfg := parseShortcutEvdev ecodesLookup pttStr
    toggleSeq := SeqState.init
    pttSeq := SeqState.init }

/-- The recognition-state effect of `_EvdevHotkeyListener.stop`: clear the
held-key set, reset both sequential states, and clear both combo latch
flags (the thread/pipe teardown is I/O and not part of the recognition
state). -/
def stopListener (s : ListenerState) : ListenerState :=
  { s with
    currentKeys := ∅
    toggleSeq := SeqState.init
    pttSeq := SeqState.init
    toggleComboActive := false
    pttComboActive := false }

/-! ## Transcription session lifecycle (`transcriber.py`) -/

/-- `audio.TARGET_RATE`: the recorder resamples every captured chunk to
this rate before invoking `on_audio_chunk`. -/
def TARGET_RATE : Nat := 24000

/-- The configuration message `_send_config` sends as the first message
of a session. -/
structure SonioxConfig where
  api_key : List Char
  model : List Char
  audio_format : List Char
  sample_rate : Nat
  num_channels : Nat
  enable_endpoint_detection : Bool
  language_hints : List (List Char)

/-- `RealtimeTranscriber._send_config`. -/
def sendConfig (apiKey language : List Char) : SonioxConfig :=
  { api_key := apiKey
    model := "stt-rt-preview".toList
    audio_format := "pcm_s16le".toList
    sample_rate := 16000
    num_channels := 1
    enable_endpoint_detection := true
    language_hints := if language ≠ [] then [language] else [] }

/-- Cross-thread-visible state of a `RealtimeTranscriber`.  `threadLive`
says whether the thread currently referenced by `self._thread` is alive;
`orphanThreads` counts live session threads that are no longer referenced
(abandoned by a timed-out join).  `sent` records the audio chunks handed
to the websocket. -/
structure TState where
  running : Bool
  apiKey : List Char
  wsOpen : Bool
  loopRunning : Bool
  threadLive : Bool
  orphanThreads : Nat
  nonfinalTyped : List Char
  sent : List (List Nat)
deriving DecidableEq

/-- Outcome of a `start()` call. -/
inductive StartResult
  | noop
  | configError
  | started
deriving DecidableEq

/-- Number of live session background threads. -/
def liveSessions (s : TState) : Nat :=
  (if s.threadLive then 1 else 0) + s.orphanThreads

/-- `RealtimeTranscriber.start`: no-op when already running; an error
callback (and nothing else) when the API key is empty; otherwise join the
previous thread with `timeout=2` — `joinCompletes` says whether that
thread terminated within the timeout; if not, it is abandoned while still
alive — then launch the new session thread. -/
def startT (s : TState) (joinCompletes : Bool) : TState × StartResult :=
  if s.running = true then (s, .noop)
  else if s.apiKey = [] then (s, .configError)
  else
    let orphaned := s.threadLive = true ∧ joinCompletes = false
    ({ s with
        running := true
        threadLive := true
        orphanThreads := s.orphanThreads + (if orphaned then 1 else 0)
        nonfinalTyped := [] },
     .started)

/-- `RealtimeTranscriber.stop`: clear the running flag; in blocking mode
additionally join the thread with `timeout=5` (abandoning it if the join
times out) and drop the websocket/loop references. -/
def stopT (s : TState) (blocking joinCompletes : Bool) : TState :=
  let s1 := { s with running := false }
  if blocking = true then
    { s1 with
      orphanThreads :=
        s1.orphanThreads + (if s1.threadLive = true ∧ joinCompletes = false then 1 else 0)
      threadLive := false
      wsOpen := false
      loopRunning := false }
  else s1

/-- `RealtimeTranscriber.send_audio`: silently drop the chunk unless the
session is running with an open websocket and a live event loop. -/
def sendAudioT (s : TState) (chunk : List Nat) : TState × Bool :=
  if s.running = true ∧ s.wsOpen = true ∧ s.loopRunning = true then
    ({ s with sent := s.sent ++ [chunk] }, true)
  else (s, false)

/-! ## Theorems -/

theorem applyCorrection_append (F st t : List Char) :
    applyCorrection (F ++ st) ⟨st.length, t⟩ = F ++ t := by
  unfold applyCorrection
  have h : (F ++ st).length - st.length = F.length := by simp
  rw [h, List.take_left]

theorem runBatches_eq (bs : List (List Token)) :
    ∀ (F st : List Char),
      runBatches st (F ++ st) bs =
        (lastNonfinalFrom st bs,
         (F ++ finalsConcat bs) ++ lastNonfinalFrom st bs) := by
  induction bs with
  | nil => intro F st; simp [runBatches, lastNonfinalFrom, finalsConcat]
  | cons b rest ih =>
    intro F st
    by_cases hb : (tokenParts b).1 = [] ∧ (tokenParts b).2 = []
    · have hpt : processTokens st b = (none, st) := by
        simp only [processTokens]
        rw [if_pos hb]
      have h1 : runBatches st (F ++ st) (b :: rest) = runBatches st (F ++ st) rest := by
        simp only [runBatches, hpt]
      rw [h1, ih F st]
      simp [lastNonfinalFrom, finalsConcat, hb.1, hb]
    · have hnew : (tokenParts b).1 ++ (tokenParts b).2 ≠ [] := by
        intro hc
        rcases List.append_eq_nil.mp hc with ⟨h1, h2⟩
        exact hb ⟨h1, h2⟩
      have hpt : processTokens st b =
          (some ⟨st.length, (tokenParts b).1 ++ (tokenParts b).2⟩, (tokenParts b).2) := by
        simp only [processTokens]
        rw [if_neg hb, if_pos (Or.inr hnew)]
      have h1 : runBatches st (F ++ st) (b :: rest) =
          runBatches (tokenParts b).2
            (applyCorrection (F ++ st) ⟨st.length, (tokenParts b).1 ++ (tokenParts b).2⟩)
            rest := by
        simp only [runBatches, hpt]
      rw [h1, applyCorrection_append,
        show F ++ ((tokenParts b).1 ++ (tokenParts b).2) =
          (F ++ (tokenParts b).1) ++ (tokenParts b).2 by simp,
        ih (F ++ (tokenParts b).1) (tokenParts b).2]
      simp [lastNonfinalFrom, finalsConcat, hb]

/-- C1.  Reconciler correction law: for every sequence of token batches
and every prefix of it, processing the prefix in order from an empty
buffer and empty remembered non-final text leaves the virtual buffer
equal to the concatenation of all final-tagged (stripped) token text of
the prefix, followed by the non-final text of the most recent batch of
the prefix that produced an instruction (empty when none did) — the
latter being exactly the reconciler's remembered non-final text. -/
theorem C1_reconciler_correction_law (batches : List (List Token)) (n : Nat) :
    (runBatches [] [] (batches.take n)).2 =
      finalsConcat (batches.take n) ++ lastNonfinalFrom [] (batches.take n) ∧
    (runBatches [] [] (batches.take n)).1 = lastNonfinalFrom [] (batches.take n) := by
  have h := runBatches_eq (batches.take n) [] []
  simp only [List.append_nil, List.nil_append] at h
  rw [h]
  exact ⟨rfl, rfl⟩

/-- C4.  Audio sample-rate contract: the recorder's fixed target rate is
24000 Hz, while the session's configuration message declares a sample
rate of 16000 Hz — the two are NOT the same number, so the audio relayed
to the session does not match the rate the session declares. -/
theorem C4_sample_rate_mismatch :
    TARGET_RATE = 24000 ∧
    (∀ apiKey language, (sendConfig apiKey language).sample_rate = 16000) ∧
    (sendConfig [] []).sample_rate ≠ TARGET_RATE := by
  exact ⟨rfl, fun _ _ => rfl, by decide⟩

/-- C5 counterexample.  The claim that after `set_shortcuts` every piece
of transient recognition state equals its initial cleared value is false:
starting from a state with held key 1 and both latch flags set,
`set_shortcuts` leaves the held-key set and the latch flags untouched. -/
theorem C5_counterexample :
    ¬ ((setShortcuts (fun _ => none)
          ⟨⟨∅, none⟩, ⟨∅, none⟩, {1}, SeqState.init, SeqState.init, true, true⟩
          [] []).currentKeys = ∅ ∧
       (setShortcuts (fun _ => none)
          ⟨⟨∅, none⟩, ⟨∅, none⟩, {1}, SeqState.init, SeqState.init, true, true⟩
          [] []).toggleComboActive = false ∧
       (setShortcuts (fun _ => none)
          ⟨⟨∅, none⟩, ⟨∅, none⟩, {1}, SeqState.init, SeqState.init, true, true⟩
          [] []).pttComboActive = false) := by
  decide

/-- C5 (amended).  After `stop` every piece of transient recognition
state is cleared; after `set_shortcuts` only the two sequential states
are reset, while the held-key set and both combo latch flags are left
unchanged. -/
theorem C5_state_reset (ec : List Char → Option Nat) (s : ListenerState)
    (toggleStr pttStr : List Char) :
    (stopListener s).currentKeys = ∅ ∧
    (stopListener s).toggleSeq = SeqState.init ∧
    (stopListener s).pttSeq = SeqState.init ∧
    (stopListener s).toggleComboActive = false ∧
    (stopListener s).pttComboActive = false ∧
    (setShortcuts ec s toggleStr pttStr).toggleSeq = SeqState.init ∧
    (setShortcuts ec s toggleStr pttStr).pttSeq = SeqState.init ∧
    (setShortcuts ec s toggleStr pttStr).currentKeys = s.currentKeys ∧
    (setShortcuts ec s toggleStr pttStr).toggleComboActive = s.toggleComboActive ∧
    (setShortcuts ec s toggleStr pttStr).pttComboActive = s.pttComboActive :=
  ⟨rfl, rfl, rfl, rfl, rfl, rfl, rfl, rfl, rfl, rfl⟩

/-- C6 counterexample.  The claim that `start()` waits for the prior
session thread to fully terminate, so that at most one live session
thread exists, is false: with a prior thread still alive whose 2-second
join times out, `start()` launches a new thread and two session threads
are live. -/
theorem C6_counterexample :
    ¬ liveSessions (startT ⟨false, ['k'], false, false, true, 0, [], []⟩ false).1 ≤ 1 := by
  decide

/-- C6 (amended).  `start()` joins a still-live prior session thread with
a 2-second timeout; provided the prior thread terminates within that
timeout (or none is alive), and no thread was previously abandoned, at
most one live session thread exists after `start()`. -/
theorem C6_start_reentrancy (s : TState) (j : Bool)
    (h0 : s.orphanThreads = 0) (hj : j = true ∨ s.threadLive = false) :
    liveSessions (startT s j).1 ≤ 1 := by
  have horph : ¬ (s.threadLive = true ∧ j = false) := by
    rcases hj with hj | hj <;> simp [hj]
  have hbase : liveSessions s ≤ 1 := by
    unfold liveSessions
    rw [h0]
    split <;> omega
  unfold startT
  by_cases hr : s.running = true
  · simpa [hr] using hbase
  · by_cases hk : s.apiKey = []
    · simpa [hr, hk] using hbase
    · simp [hr, hk, liveSessions, h0, horph]

/-- C6 witness. -/
theorem C6_start_reentrancy_witness :
    liveSessions (startT ⟨false, ['k'], false, false, true, 0, [], []⟩ true).1 ≤ 1 :=
  C6_start_reentrancy ⟨false, ['k'], false, false, true, 0, [], []⟩ true rfl (Or.inl rfl)

/-- C7.  Starting with an empty API key reports a configuration error and
changes nothing (no thread, not running); starting an already-running
session is a no-op. -/
theorem C7_missing_credential_start (s : TState) (j : Bool) :
    (s.running = false → s.apiKey = [] → startT s j = (s, .configError)) ∧
    (s.running = true → startT s j = (s, .noop)) := by
  constructor
  · intro h1 h2
    simp [startT, h1, h2]
  · intro h1
    simp [startT, h1]

/-- C7 witness. -/
theorem C7_missing_credential_start_witness :
    startT ⟨false, [], false, false, false, 0, [], []⟩ true =
      (⟨false, [], false, false, false, 0, [], []⟩, .configError) ∧
    startT ⟨true, ['k'], true, true, true, 0, [], []⟩ true =
      (⟨true, ['k'], true, true, true, 0, [], []⟩, .noop) :=
  ⟨(C7_missing_credential_start ⟨false, [], false, false, false, 0, [], []⟩ true).1 rfl rfl,
   (C7_missing_credential_start ⟨true, ['k'], true, true, true, 0, [], []⟩ true).2 rfl⟩

/-- C8.  `send_audio` outside streaming is a silent no-op: when the
session is not running, or the websocket or event loop is absent, the
chunk is dropped and the state is unchanged; in particular every send
after `stop()` is a no-op. -/
theorem C8_send_audio_noop :
    (∀ (s : TState) (chunk : List Nat),
      s.running = false ∨ s.wsOpen = false ∨ s.loopRunning = false →
      sendAudioT s chunk = (s, false)) ∧
    (∀ (s : TState) (blocking joins : Bool) (chunk : List Nat),
      sendAudioT (stopT s blocking joins) chunk = (stopT s blocking joins, false)) := by
  have hmain : ∀ (s : TState) (chunk : List Nat),
      s.running = false ∨ s.wsOpen = false ∨ s.loopRunning = false →
      sendAudioT s chunk = (s, false) := by
    intro s chunk h
    unfold sendAudioT
    rcases h with h | h | h <;> simp [h]
  refine ⟨hmain, fun s blocking joins chunk => ?_⟩
  apply hmain
  left
  unfold stopT
  split <;> rfl

theorem pttDown_preserves (s : ListenerState) (code : Nat) (now : ℚ) :
    (pttDown s code now).1.toggleComboActive = s.toggleComboActive ∧
    (pttDown s code now).1.toggleCfg = s.toggleCfg ∧
    (pttDown s code now).1.currentKeys = s.currentKeys := by
  simp only [pttDown]
  repeat' split
  all_goals simp

theorem pttUp_preserves (s : ListenerState) (code : Nat) :
    (pttUp s code).1.toggleComboActive = s.toggleComboActive ∧
    (pttUp s code).1.toggleCfg = s.toggleCfg ∧
    (pttUp s code).1.currentKeys = s.currentKeys := by
  simp only [pttUp]
  repeat' split
  all_goals simp

theorem toggleUpLatch_preserves (s : ListenerState) (code : Nat) :
    (toggleUpLatch s code).toggleCfg = s.toggleCfg ∧
    (toggleUpLatch s code).currentKeys = s.currentKeys := by
  simp only [toggleUpLatch]
  split
  all_goals simp

theorem toggleUpLatch_notin (s : ListenerState) (code : Nat)
    (h : code ∉ s.toggleCfg.combo) :
    (toggleUpLatch s code).toggleComboActive = s.toggleComboActive := by
  simp only [toggleUpLatch]
  rw [if_neg (by simp [h])]

theorem toggleUpLatch_in (s : ListenerState) (code : Nat)
    (h1 : s.toggleComboActive = true) (h2 : s.toggleCfg.isCombo = true)
    (h3 : code ∈ s.toggleCfg.combo) :
    (toggleUpLatch s code).toggleComboActive = false := by
  simp only [toggleUpLatch]
  rw [if_pos ⟨h1, h2, h3⟩]

theorem toggleDown_combo (K : Finset Nat) (hK : K ≠ ∅) (s : ListenerState)
    (code : Nat) (now : ℚ) (hcfg : s.toggleCfg = ⟨K, none⟩) :
    ((toggleDown s code now).2 = true ↔
      (K ⊆ s.currentKeys ∧ s.toggleComboActive = false)) ∧
    (toggleDown s code now).1.toggleCfg = s.toggleCfg ∧
    (toggleDown s code now).1.currentKeys = s.currentKeys ∧
    (toggleDown s code now).1.toggleComboActive =
      (s.toggleComboActive || (toggleDown s code now).2) := by
  have hseq : s.toggleCfg.isSequential = false := by
    rw [hcfg]; rfl
  by_cases hsub : K ⊆ s.currentKeys <;> by_cases hl : s.toggleComboActive = true <;>
    simp_all [toggleDown, comboMatches, ShortcutConfig.isCombo, hcfg]

theorem stepEvent_latched (K : Finset Nat) (hK : K ≠ ∅) (s : ListenerState)
    (e : KeyEvent) (t : ℚ) (hcfg : s.toggleCfg = ⟨K, none⟩)
    (hl : s.toggleComboActive = true)
    (hnot : ∀ k, e = KeyEvent.up k → k ∉ K) :
    (stepEvent s e t).2.toggle = false ∧
    (stepEvent s e t).1.toggleComboActive = true ∧
    (stepEvent s e t).1.toggleCfg = ⟨K, none⟩ := by
  cases e with
  | down code =>
    have htd := toggleDown_combo K hK
      {s with currentKeys := insert code s.currentKeys} code t hcfg
    have hfire : (toggleDown {s with currentKeys := insert code s.currentKeys} code t).2 = false := by
      rcases hfb : (toggleDown {s with currentKeys := insert code s.currentKeys} code t).2 with _ | _
      · rfl
      · have := (htd.1.mp hfb).2
        simp only [hl] at this
        cases this
    have hpp := pttDown_preserves
      (toggleDown {s with currentKeys := insert code s.currentKeys} code t).1 code t
    refine ⟨?_, ?_, ?_⟩
    · simp only [stepEvent, onKeyDown]
      exact hfire
    · simp only [stepEvent, onKeyDown]
      rw [hpp.1, htd.2.2.2, hfire, hl]
      rfl
    · simp only [stepEvent, onKeyDown]
      rw [hpp.2.1, htd.2.1]
      exact hcfg
  | up code =>
    have hk : code ∉ K := hnot code rfl
    have hpu := pttUp_preserves s code
    have hnotin : code ∉ (pttUp s code).1.toggleCfg.combo := by
      rw [hpu.2.1, hcfg]
      exact hk
    refine ⟨rfl, ?_, ?_⟩
    · show (toggleUpLatch (pttUp s code).1 code).toggleComboActive = true
      rw [toggleUpLatch_notin _ _ hnotin, hpu.1, hl]
    · show (toggleUpLatch (pttUp s code).1 code).toggleCfg = ⟨K, none⟩
      rw [(toggleUpLatch_preserves _ _).1, hpu.2.1, hcfg]

theorem runEvents_latched (K : Finset Nat) (hK : K ≠ ∅) :
    ∀ (evs : List (KeyEvent × ℚ)) (s : ListenerState),
      s.toggleCfg = ⟨K, none⟩ → s.toggleComboActive = true →
      (∀ k t, (KeyEvent.up k, t) ∈ evs → k ∉ K) →
      (runEvents s evs).2 = 0 ∧ (runEvents s evs).1.toggleComboActive = true
  | [], _, _, hl, _ => ⟨rfl, hl⟩
  | (e, t) :: es, s, hcfg, hl, hnot => by
      have hstep := stepEvent_latched K hK s e t hcfg hl
        (fun k hk => hnot k t (by rw [hk]; simp))
      have ih := runEvents_latched K hK es (stepEvent s e t).1 hstep.2.2 hstep.2.1
        (fun k t' hmem => hnot k t' (by simp [hmem]))
      simp only [runEvents]
      refine ⟨?_, ih.2⟩
      rw [hstep.1]
      simp [ih.1]

theorem stepEvent_down_latch (K : Finset Nat) (hK : K ≠ ∅) (s : ListenerState)
    (k : Nat) (now : ℚ) (hcfg : s.toggleCfg = ⟨K, none⟩) :
    (stepEvent s (.down k) now).1.toggleComboActive =
      (s.toggleComboActive || (stepEvent s (.down k) now).2.toggle) ∧
    (stepEvent s (.down k) now).1.toggleCfg = ⟨K, none⟩ := by
  have htd := toggleDown_combo K hK
    {s with currentKeys := insert k s.currentKeys} k now hcfg
  have hpp := pttDown_preserves
    (toggleDown {s with currentKeys := insert k s.currentKeys} k now).1 k now
  constructor
  · simp only [stepEvent, onKeyDown]
    rw [hpp.1, htd.2.2.2]
  · simp only [stepEvent, onKeyDown]
    rw [hpp.2.1, htd.2.1]
    exact hcfg

/-- C2.  Chord subset property: for a simultaneous shortcut with required
key set `K`, a key-down fires the toggle binding exactly when `K` is a
subset of the held-key set (after registering the pressed key) and the
latch is clear; a fire sets the latch (the post-state latch is the old
latch or-ed with the fire flag); a release of a key in `K` clears the
latch; from a latched state, no fire occurs across any event stream that
never releases a key of `K`, with the latch remaining set; hence after a
firing key-down, no further fire occurs until some key of `K` is
released. -/
theorem C2_chord_subset (K : Finset Nat) (hK : K ≠ ∅) :
    (∀ (s : ListenerState) (k : Nat) (now : ℚ), s.toggleCfg = ⟨K, none⟩ →
      ((stepEvent s (.down k) now).2.toggle = true ↔
        (K ⊆ insert k s.currentKeys ∧ s.toggleComboActive = false))) ∧
    (∀ (s : ListenerState) (k : Nat) (now : ℚ), s.toggleCfg = ⟨K, none⟩ →
      (stepEvent s (.down k) now).1.toggleComboActive =
        (s.toggleComboActive || (stepEvent s (.down k) now).2.toggle)) ∧
    (∀ (s : ListenerState) (k : Nat) (now : ℚ), s.toggleCfg = ⟨K, none⟩ →
      s.toggleComboActive = true → k ∈ K →
      (stepEvent s (.up k) now).1.toggleComboActive = false) ∧
    (∀ (s : ListenerState) (evs : List (KeyEvent × ℚ)), s.toggleCfg = ⟨K, none⟩ →
      s.toggleComboActive = true →
      (∀ k t, (KeyEvent.up k, t) ∈ evs → k ∉ K) →
      (runEvents s evs).2 = 0 ∧
      (runEvents s evs).1.toggleComboActive = true) ∧
    (∀ (s : ListenerState) (k : Nat) (now : ℚ) (evs : List (KeyEvent × ℚ)),
      s.toggleCfg = ⟨K, none⟩ →
      (stepEvent s (.down k) now).2.toggle = true →
      (∀ k' t, (KeyEvent.up k', t) ∈ evs → k' ∉ K) →
      (runEvents (stepEvent s (.down k) now).1 evs).2 = 0 ∧
      (runEvents (stepEvent s (.down k) now).1 evs).1.toggleComboActive = true) := by
  refine ⟨?_, ?_, ?_, ?_, ?_⟩
  · intro s k now hcfg
    have htd := toggleDown_combo K hK
      {s with currentKeys := insert k s.currentKeys} k now hcfg
    simpa only [stepEvent, onKeyDown] using htd.1
  · intro s k now hcfg
    exact (stepEvent_down_latch K hK s k now hcfg).1
  · intro s k now hcfg hl hk
    have hpu := pttUp_preserves s k
    show (toggleUpLatch (pttUp s k).1 k).toggleComboActive = false
    refine toggleUpLatch_in _ _ ?_ ?_ ?_
    · rw [hpu.1]; exact hl
    · rw [hpu.2.1, hcfg]
      simp [ShortcutConfig.isCombo, hK]
    · rw [hpu.2.1, hcfg]
      exact hk
  · intro s evs hcfg hl hnot
    exact runEvents_latched K hK evs s hcfg hl hnot
  · intro s k now evs hcfg hfire hnot
    have hsl := stepEvent_down_latch K hK s k now hcfg
    have hlatch : (stepEvent s (.down k) now).1.toggleComboActive = true := by
      rw [hsl.1, hfire]
      simp
    exact runEvents_latched K hK evs _ hsl.2 hlatch hnot

/-- C2 witness: with `K = {5}` and no keys held, pressing key 5 fires the
toggle binding and sets the latch. -/
theorem C2_chord_subset_witness :
    (({5} : Finset Nat) ≠ ∅) ∧
    (stepEvent ⟨⟨{5}, none⟩, ⟨∅, none⟩, ∅, SeqState.init, SeqState.init, false, false⟩
      (.down 5) 0).2.toggle = true ∧
    (stepEvent ⟨⟨{5}, none⟩, ⟨∅, none⟩, ∅, SeqState.init, SeqState.init, false, false⟩
        (.down 5) 0).1.toggleComboActive =
      (false ||
        (stepEvent ⟨⟨{5}, none⟩, ⟨∅, none⟩, ∅, SeqState.init, SeqState.init, false, false⟩
          (.down 5) 0).2.toggle) :=
  ⟨by decide,
   ((C2_chord_subset {5} (by decide)).1
      ⟨⟨{5}, none⟩, ⟨∅, none⟩, ∅, SeqState.init, SeqState.init, false, false⟩
      5 0 rfl).mpr (by constructor <;> decide),
   (C2_chord_subset {5} (by decide)).2.1
      ⟨⟨{5}, none⟩, ⟨∅, none⟩, ∅, SeqState.init, SeqState.init, false, false⟩
      5 0 rfl⟩

theorem foldl_resolve_none (ec : List Char → Option Nat) :
    ∀ (parts : List (List Char)) (acc : Finset Nat),
      (∀ t ∈ parts, resolveEvdevToken ec t = none) →
      parts.foldl (fun acc part =>
        match resolveEvdevToken ec part with
        | some c => insert c acc
        | none => acc) acc = acc
  | [], _, _ => rfl
  | p :: ps, acc, h => by
      have hp : resolveEvdevToken ec p = none := h p (by simp)
      simp only [List.foldl_cons, hp]
      exact foldl_resolve_none ec ps acc (fun t ht => h t (by simp [ht]))

/-- C9.  Parser graceful degradation: parsing is a total function; the
empty string parses to the empty shortcut; a string all of whose tokens
fail to resolve parses to the empty shortcut; and the empty shortcut
never fires — it matches no held-key set and no sequential key press. -/
theorem C9_parser_graceful (ec : List Char → Option Nat) :
    parseShortcutEvdev ec [] = ⟨∅, none⟩ ∧
    (∀ s : List Char,
      (∀ t ∈ shortcutTokens s, resolveEvdevToken ec t = none) →
      parseShortcutEvdev ec s = ⟨∅, none⟩) ∧
    (∀ currentKeys : Finset Nat, comboMatches ⟨∅, none⟩ currentKeys = false) ∧
    (∀ (st : SeqState) (code : Nat) (now : ℚ),
      checkSeq ⟨∅, none⟩ st code now = (st, false)) := by
  refine ⟨by simp [parseShortcutEvdev], ?_, ?_, ?_⟩
  · intro s h
    by_cases hs : s = []
    · simp [hs, parseShortcutEvdev]
    · simp only [parseShortcutEvdev]
      rw [if_neg hs]
      by_cases hc : ',' ∈ normalizeShortcutStr s
      · rw [if_pos hc]
        have h1 : resolveEvdevToken ec (splitOnce ',' (normalizeShortcutStr s)).1 = none := by
          apply h; simp [shortcutTokens, hc]
        have h2 : resolveEvdevToken ec (splitOnce ',' (normalizeShortcutStr s)).2 = none := by
          apply h; simp [shortcutTokens, hc]
        rw [h1, h2]
      · rw [if_neg hc]
        have hall : ∀ t ∈ (normalizeShortcutStr s).splitOn '+',
            resolveEvdevToken ec t = none := by
          intro t ht
          apply h
          simp [shortcutTokens, hc, ht]
        rw [foldl_resolve_none ec _ ∅ hall]
        simp
  · intro currentKeys
    simp [comboMatches, ShortcutConfig.isCombo]
  · intro st code now
    rfl

/-- C9 witness. -/
theorem C9_parser_graceful_witness :
    (∀ t ∈ shortcutTokens "?+?".toList,
      resolveEvdevToken (fun _ => none) t = none) ∧
    parseShortcutEvdev (fun _ => none) "?+?".toList = ⟨∅, none⟩ :=
  ⟨by decide, (C9_parser_graceful (fun _ => none)).2.1 _ (by decide)⟩

/-- C3.  Sequential timing: with the state armed at `t0`, a press of the
second key at `t1` fires exactly when `t1 - t0 ≤ _SEQ_WINDOW`, and a fire
clears the arming; a press of the first key that does not itself complete
a fire (re-)arms the state at its own timestamp, after which a qualifying
second press still fires. -/
theorem C3_sequential_timing (f sec : Nat) (t0 t1 : ℚ) :
    ((checkSeq ⟨∅, some (f, sec)⟩ ⟨true, t0⟩ sec t1).2 = true ↔
      t1 - t0 ≤ seqWindow) ∧
    (t1 - t0 ≤ seqWindow →
      (checkSeq ⟨∅, some (f, sec)⟩ ⟨true, t0⟩ sec t1).1 = SeqState.init) ∧
    (∀ (st : SeqState) (t2 : ℚ),
      (checkSeq ⟨∅, some (f, sec)⟩ st f t2).2 = false →
      (checkSeq ⟨∅, some (f, sec)⟩ st f t2).1 = ⟨true, t2⟩) ∧
    (∀ t2 t3 : ℚ, t3 - t2 ≤ seqWindow →
      (checkSeq ⟨∅, some (f, sec)⟩ ⟨true, t2⟩ sec t3).2 = true) := by
  refine ⟨?_, ?_, ?_, ?_⟩
  · by_cases hw : t1 - t0 ≤ seqWindow
    · simp [checkSeq, hw]
    · simp only [checkSeq]
      rw [if_neg (by simp [hw])]
      split <;> simp [hw]
  · intro hw
    simp [checkSeq, hw]
  · intro st t2 hfire
    simp only [checkSeq] at hfire ⊢
    split at hfire
    · simp at hfire
    · next hcond =>
        rw [if_neg hcond]
        simp
  · intro t2 t3 hw
    simp [checkSeq, hw]

/-- C3 witness. -/
theorem C3_sequential_timing_witness :
    ((checkSeq ⟨∅, some (1, 2)⟩ ⟨true, 0⟩ 2 (1/2)).2 = true) ∧
    ((1 : ℚ)/2 - 0 ≤ seqWindow) ∧
    ((checkSeq ⟨∅, some (1, 2)⟩ ⟨false, 0⟩ 1 3).2 = false →
      (checkSeq ⟨∅, some (1, 2)⟩ ⟨false, 0⟩ 1 3).1 = ⟨true, 3⟩) :=
  ⟨(C3_sequential_timing 1 2 0 (1/2)).1.mpr (by norm_num [seqWindow]),
   by norm_num [seqWindow],
   (C3_sequential_timing 1 2 0 0).2.2.1 ⟨false, 0⟩ 3⟩

theorem runTaps_fires (k : Nat) :
    ∀ (ts : List ℚ) (τ : ℚ),
      List.Chain' (fun a b => b - a ≤ seqWindow) ts →
      (runTaps k ⟨false, τ⟩ ts).2 = altFires ts.length
  | [], _, _ => rfl
  | [t], τ, _ => by
      simp [runTaps, checkSeq, altFires]
  | t1 :: t2 :: ts, τ, h => by
      have h12 : t2 - t1 ≤ seqWindow := (List.chain'_cons.mp h).1
      have hrest : List.Chain' (fun a b => b - a ≤ seqWindow) ts :=
        (List.chain'_cons.mp h).2.tail
      have s1 : checkSeq ⟨∅, some (k, k)⟩ ⟨false, τ⟩ k t1 = (⟨true, t1⟩, false) := by
        simp [checkSeq]
      have s2 : checkSeq ⟨∅, some (k, k)⟩ ⟨true, t1⟩ k t2 = (SeqState.init, true) := by
        simp [checkSeq, h12]
      have ih := runTaps_fires k ts 0 hrest
      simp only [runTaps, s1, s2, SeqState.init] at ih ⊢
      rw [ih]
      simp [altFires]

theorem altFires_getD :
    ∀ (n i : Nat), i < n → (altFires n).getD i false = decide ((i + 1) % 2 = 0)
  | 0, i, h => absurd h (by omega)
  | 1, 0, _ => rfl
  | 1, _ + 1, h => absurd h (by omega)
  | _ + 2, 0, _ => rfl
  | _ + 2, 1, _ => rfl
  | n + 2, i + 2, h => by
      show (altFires n).getD i false = _
      rw [altFires_getD n i (by omega)]
      have heq : (i + 1) % 2 = (i + 2 + 1) % 2 := by omega
      rw [heq]

/-- C10.  Double-tap fire parity: for a double-tap shortcut and any run
of consecutive key-down taps each within the window of its predecessor,
the tap at (0-based) position `i` fires exactly when it is the 2nd, 4th,
6th, … tap — in particular a third consecutive tap never fires. -/
theorem C10_double_tap_parity (k : Nat) (ts : List ℚ)
    (hchain : List.Chain' (fun a b => b - a ≤ seqWindow) ts)
    (i : Nat) (hi : i < ts.length) :
    ((runTaps k SeqState.init ts).2.getD i false = true ↔ (i + 1) % 2 = 0) := by
  rw [show (SeqState.init : SeqState) = ⟨false, 0⟩ from rfl,
    runTaps_fires k ts 0 hchain, altFires_getD ts.length i hi]
  simp

/-- C10 witness: three taps at 0, ½ and 1 seconds (each gap ½ ≤ 0.6);
the second tap fires. -/
theorem C10_double_tap_parity_witness :
    List.Chain' (fun a b : ℚ => b - a ≤ seqWindow) [0, 1/2, 1] ∧
    ((runTaps 7 SeqState.init [0, 1/2, 1]).2.getD 1 false = true ↔ (1 + 1) % 2 = 0) :=
  ⟨by norm_num [List.chain'_cons, seqWindow],
   C10_double_tap_parity 7 [0, 1/2, 1]
     (by norm_num [List.chain'_cons, seqWindow]) 1 (by norm_num)⟩

/-- C8 witness. -/
theorem C8_send_audio_noop_witness :
    sendAudioT ⟨false, ['k'], true, true, false, 0, [], []⟩ [1, 2] =
      (⟨false, ['k'], true, true, false, 0, [], []⟩, false) :=
  C8_send_audio_noop.1 ⟨false, ['k'], true, true, false, 0, [], []⟩ [1, 2] (Or.inl rfl)

end VoiceBoard
